import Mathlib

/- Verification of the LaBench load-generation engine against a shallow
embedding of its Go source (package bench: the benchmark driver, worker,
collector and ticker of the engine file; summary.go; web_requester.go).

Modelling conventions.  Go int64 nanosecond durations are modelled as Int
and Go uint64 counters as Nat; every modelled path manipulates values far
below 2^63 (nanosecond durations up to hours, counters bounded by ticks),
so machine wrap-around never occurs there and is not modelled.  The single
float64 computation in NewBenchmark is modelled by exact rational division
truncated to an integer, matching time.Duration(float64(time.Second) /
float64(requestRate)) for the representable range.  Channels are modelled
by explicit buffers; the nondeterminism of Go select over ready arms is
modelled as an inductive relation over collector states.  The HDR histogram
is treated, as the specification directs, as a black box: the embedding
tracks the exact list of values passed to RecordValue. -/

namespace LaBench

/-- Clamp applied by `worker` before sending a success sample on the results
channel: a negative measured latency (possible on some platforms) is
reported as 0; non-negative latencies are sent unchanged. -/
def sentLatency (measured : Int) : Int :=
  if measured < 0 then 0 else measured

/-- The argument `collectorFunc` passes to `successHistogram.RecordValue`:
the sample received from the results channel minus the configured base
latency, with no further clamping. -/
def recordValueArg (sample baseLatency : Int) : Int :=
  sample - baseLatency

/-- End-to-end value recorded for a success whose measured latency was
`measured` nanoseconds, under the configured base latency: the worker's
clamp followed by the collector's subtraction. -/
def recordedOfMeasured (measured baseLatency : Int) : Int :=
  recordValueArg (sentLatency measured) baseLatency

/-- Processing of one results-channel sample by `collectorFunc`: exactly one
value is appended to the histogram's record list. -/
def processResult (baseLatency : Int) (recorded : List Int) (sample : Int) : List Int :=
  recorded ++ [recordValueArg sample baseLatency]

/-- Increment of `b.errors[err.Error()]` performed by `collectorFunc` on an
error sample, on an association-list model of the Go map. -/
def bumpKey (m : List (String × Nat)) (k : String) : List (String × Nat) :=
  if m.any (fun p => p.1 = k) then
    m.map (fun p => if p.1 = k then (p.1, p.2 + 1) else p)
  else m ++ [(k, 1)]

/-- State of the collector together with the channels it reads:
`resultsBuf` and `errorsBuf` are the samples still buffered in the results
and errors channels (all workers have exited, so no further sends occur),
`stopClosed` records whether the driver has closed `stopCollector`,
`recorded` is the list of values recorded into the success histogram and
`errCounts` the error map. -/
structure CollectorState where
  resultsBuf : List Int
  errorsBuf : List String
  stopClosed : Bool
  recorded : List Int
  errCounts : List (String × Nat)
  deriving Repr, DecidableEq

/-- Possible returns of `collectorFunc`'s select loop, with Go select
semantics: any arm whose channel operation is ready may fire.  Receiving
from the closed `stopCollector` channel is always ready once `stopClosed`;
receiving from results or errors is ready exactly when data is buffered.
`CollectorReturns base s t` holds when, started in channel/collector state
`s`, the loop can return leaving state `t`. -/
inductive CollectorReturns (base : Int) : CollectorState → CollectorState → Prop
  | done (s : CollectorState) (h : s.stopClosed = true) : CollectorReturns base s s
  | recvResult (s t : CollectorState) (v : Int) (rest : List Int)
      (hbuf : s.resultsBuf = v :: rest)
      (next : CollectorReturns base
        { s with resultsBuf := rest, recorded := s.recorded ++ [recordValueArg v base] } t) :
      CollectorReturns base s t
  | recvError (s t : CollectorState) (e : String) (rest : List String)
      (hbuf : s.errorsBuf = e :: rest)
      (next : CollectorReturns base
        { s with errorsBuf := rest, errCounts := bumpKey s.errCounts e } t) :
      CollectorReturns base s t

/-- The two ticker strategies of `tickerFunc`. -/
inductive TickerStrategy
  | sleeping
  | tight
  deriving Repr, DecidableEq

/-- Strategy selection in `tickerFunc`: the sleeping ticker is used when the
tight ticker is not forced and the expected interval is at least seven times
the probed OS timer resolution; otherwise the tight ticker is used. -/
def tickerChoice (forceTight : Bool) (expectedInterval timerRes : Int) : TickerStrategy :=
  if forceTight = false ∧ 7 * timerRes ≤ expectedInterval then .sleeping else .tight

/-- Benchmark configuration produced by `NewBenchmark`.  The expected
interval is in nanoseconds. -/
structure Benchmark where
  connections : Nat
  requestRate : Nat
  duration : Int
  baseLatency : Int
  expectedInterval : Nat
  deriving Repr, DecidableEq

/-- `NewBenchmark`: a zero connections count is coerced to 1; a zero request
rate is a fatal configuration error (`log.Panicln`, modelled as `.error`)
raised before the run starts; otherwise the benchmark is built with
`expectedInterval = time.Duration(float64(time.Second) / float64(rate))`,
modelled as the truncated exact quotient `10^9 / rate`. -/
def NewBenchmark (requestRate connections : Nat) (duration baseLatency : Int) :
    Except String Benchmark :=
  let conns := if connections = 0 then 1 else connections
  if requestRate = 0 then .error "RequestRate must be positive"
  else .ok { connections := conns, requestRate := requestRate, duration := duration,
             baseLatency := baseLatency, expectedInterval := 1000000000 / requestRate }

/-- Result of one `requester.Request()` call as seen by `worker`: success
with the measured latency, or failure with the error string. -/
inductive ReqResult
  | success (measuredLatency : Int)
  | failure (err : String)
  deriving Repr, DecidableEq

/-- One tick consumed by `worker`: the timestamp the tick carried, the time
`before = time.Now()` at pickup, and the request's result. -/
structure TickWork where
  tick : Int
  pickup : Int
  result : ReqResult
  deriving Repr, DecidableEq

/-- A worker's local counters and the samples it has sent. -/
structure WorkerState where
  lateSends : Nat
  timelySends : Nat
  errorTotal : Nat
  successTotal : Nat
  resultsSent : List Int
  errorsSent : List String
  deriving Repr, DecidableEq

def workerInit : WorkerState := ⟨0, 0, 0, 0, [], []⟩

/-- Body of `worker`'s tick loop: the send is late when the tick was picked
up at least one expected interval after its nominal time, else timely; then
the request runs, and exactly one of an error sample or a success sample
(latency clamped at 0) is produced. -/
def workerStep (expectedInterval : Int) (st : WorkerState) (w : TickWork) : WorkerState :=
  let st :=
    if expectedInterval ≤ w.pickup - w.tick then
      { st with lateSends := st.lateSends + 1 }
    else
      { st with timelySends := st.timelySends + 1 }
  match w.result with
  | .failure e =>
      { st with errorTotal := st.errorTotal + 1, errorsSent := st.errorsSent ++ [e] }
  | .success L =>
      { st with successTotal := st.successTotal + 1,
                resultsSent := st.resultsSent ++ [sentLatency L] }

/-- A whole worker run over the ticks it receives before the tick channel
closes. -/
def workerRun (expectedInterval : Int) (ticks : List TickWork) : WorkerState :=
  ticks.foldl (workerStep expectedInterval) workerInit

/-- Sum of a counter over the merged worker pool (each worker's local
counters are merged by atomic addition at exit, so the shared total is the
sum of the per-worker values). -/
def poolSum (expectedInterval : Int) (runs : List (List TickWork)) (f : WorkerState → Nat) : Nat :=
  (runs.map (fun ts => f (workerRun expectedInterval ts))).sum

/-- The literal part of the `summarize` regex `Expected 200-response, but
got (\d+)`. -/
def patternLiteral : List Char := "Expected 200-response, but got ".data

/-- Regex match attempt anchored at the head of `s`: the literal must be a
prefix and at least one digit must follow; the capture is the maximal
(greedy) digit run. -/
def matchAt (s : List Char) : Option (List Char) :=
  if patternLiteral.isPrefixOf s then
    let ds := (s.drop patternLiteral.length).takeWhile Char.isDigit
    if ds.isEmpty then none else some ds
  else none

/-- Leftmost unanchored search, as performed by `FindStringSubmatch`:
return the capture of the leftmost match, if any. -/
def findCapture : List Char → Option (List Char)
  | [] => none
  | c :: cs =>
    match matchAt (c :: cs) with
    | some ds => some ds
    | none => findCapture cs

/-- Error-key normalisation performed by `summarize`: if the regex finds a
match, the bucket key is the captured digit run; otherwise the original
error string verbatim. -/
def normalizeErrorKey (s : String) : String :=
  match findCapture s.data with
  | some ds => String.mk ds
  | none => s

/-- `formattedErrors[key] = count` in `summarize`: an assignment (not an
increment) on the association-list model of the Go map. -/
def setKey (m : List (String × Nat)) (k : String) (v : Nat) : List (String × Nat) :=
  if m.any (fun p => p.1 = k) then
    m.map (fun p => if p.1 = k then (k, v) else p)
  else m ++ [(k, v)]

/-- The `formattedErrors` map built by `summarize` from the raw error map
entries: each entry's count is written under its normalised key. -/
def formatErrors (errs : List (String × Nat)) : List (String × Nat) :=
  errs.foldl (fun m p => setKey m (normalizeErrorKey p.1) p.2) []

/-- Decimal digit character, as produced by Go integer formatting. -/
def digitChar : Nat → Char
  | 0 => '0' | 1 => '1' | 2 => '2' | 3 => '3' | 4 => '4'
  | 5 => '5' | 6 => '6' | 7 => '7' | 8 => '8' | _ => '9'

/-- Digit-by-digit rendering with a structural fuel argument (the fuel
`n + 1` used below always suffices, since the argument shrinks by a factor
of ten each step). -/
def goItoaCore : Nat → Nat → List Char
  | 0, _ => []
  | fuel + 1, n =>
    if n < 10 then [digitChar n]
    else goItoaCore fuel (n / 10) ++ [digitChar (n % 10)]

/-- Go's `%v` rendering of a non-negative integer (HTTP status codes are
non-negative): its decimal digits. -/
def goItoa (n : Nat) : List Char := goItoaCore (n + 1) n

/-- The status-code mismatch error produced by `webRequester.Request`:
`fmt.Errorf("Expected %v got %v", w.expectedReturnCode, resp.StatusCode)`. -/
def statusMismatchError (expected actual : Nat) : String :=
  String.mk ("Expected ".data ++ goItoa expected ++ " got ".data ++ goItoa actual)

/-- Non-increasing count order down an error table, the presentation order
produced by `sort.Sort(sort.Reverse(el))` with `ErrorList.Less` comparing
counts. -/
def sortedDescBy (l : List (String × Nat)) : Prop :=
  l.Pairwise (fun a b => b.2 ≤ a.2)

/-- The error tables `Summary.String` can render for a given set of map
entries: `el` is filled in Go map iteration order (which is arbitrary) and
sorted by the unstable `sort.Sort` under descending count, so exactly the
permutations of the entries that are non-increasing in count are possible
outputs. -/
def PossibleErrorTable (entries out : List (String × Nat)) : Prop :=
  out.Perm entries ∧ sortedDescBy out

/-- One data row of the latency distribution file written by
`generateLatencyDistribution`. -/
structure DistRow where
  value : ℚ
  percentile : ℚ
  totalCount : Nat
  invOneMinusPercentile : ℚ
  deriving Repr, DecidableEq

/-- One line of the distribution file.  Every line the Go code writes ends
in a newline (the header `WriteString` ends in two, giving the blank
separator; each row's `Sprintf` format ends in one), so the file carries a
trailing newline after the last row. -/
inductive DistLine
  | header
  | blank
  | row (r : DistRow)
  deriving Repr, DecidableEq

/-- Modelled from the spec: the default logarithmic percentile scale
`Logarithmic` (its defining source file is not under src/); the engine
substitutes it when the percentile list is nil. -/
def Logarithmic : List ℚ :=
  [0, 10, 20, 30, 40, 50, 55, 60, 65, 70, 75, 80, 85, 90, 92.5, 95, 97.5,
   98, 99, 99.5, 99.75, 99.9, 99.95, 99.99, 99.999, 100]

/-- The data row written for percentile `p`:
`fmt.Sprintf("%f    %f        %d            %f\n", value, percentile/100, 0,
1/(1-(percentile/100)))` with
`value = float64(histogram.ValueAtQuantile(percentile)) / 1000000`. -/
def distRowFor (valueAtQuantile : ℚ → Int) (p : ℚ) : DistRow :=
  ⟨(valueAtQuantile p : ℚ) / 1000000, p / 100, 0, 1 / (1 - p / 100)⟩

/-- The distribution file produced by `generateLatencyDistribution`, line by
line: header, blank separator, then one row per percentile in input order.
A nil percentile list (`none`) defaults to `Logarithmic`. -/
def generateLatencyDistribution (valueAtQuantile : ℚ → Int)
    (percentiles : Option (List ℚ)) : List DistLine :=
  let ps := percentiles.getD Logarithmic
  DistLine.header :: DistLine.blank ::
    ps.map (fun p => DistLine.row (distRowFor valueAtQuantile p))

/-- One emitted tick as the tight ticker observes it: the clock reading
`now` at which the inner busy loop exited, and whether a worker was ready to
receive the non-blocking send. -/
structure TickerObs where
  now : Int
  ready : Bool
  deriving Repr, DecidableEq

/-- The tight ticker's mutable state: `lastTick`, the two counters and
whether it has closed the tick channel and terminated. -/
structure TickerState where
  lastTick : Int
  timelyTicks : Nat
  missedTicks : Nat
  closed : Bool
  deriving Repr, DecidableEq

/-- The inner busy loop of `tightTicker`, over a trace of successive clock
readings: returns the first reading at least one expected interval past
`lastTick`. -/
def busyWait (lastTick expectedInterval : Int) : List Int → Option Int
  | [] => none
  | t :: ts =>
    if expectedInterval ≤ t - lastTick then some t
    else busyWait lastTick expectedInterval ts

/-- One iteration of `tightTicker` past the busy wait: `lastTick` advances
by exactly the expected interval (never by the actually elapsed time), and
the non-blocking send counts one timely tick on acceptance or one missed
tick on a drop. -/
def tightStep (expectedInterval : Int) (st : TickerState) (o : TickerObs) : TickerState :=
  { st with
    lastTick := st.lastTick + expectedInterval
    timelyTicks := if o.ready then st.timelyTicks + 1 else st.timelyTicks
    missedTicks := if o.ready then st.missedTicks else st.missedTicks + 1 }

/-- The `tightTicker` loop over successive busy-wait exits: after each
emitted tick, if `now - start > duration` the tick channel is closed and
the loop terminates; otherwise it continues. -/
def tightLoop (start expectedInterval duration : Int) (st : TickerState) :
    List TickerObs → TickerState
  | [] => st
  | o :: rest =>
    if duration < o.now - start then { tightStep expectedInterval st o with closed := true }
    else tightLoop start expectedInterval duration (tightStep expectedInterval st o) rest

/-- A whole tight-ticker run from `start`, with `lastTick` initialised to
`start` and both counters to zero. -/
def tightTicker (start expectedInterval duration : Int) (obs : List TickerObs) : TickerState :=
  tightLoop start expectedInterval duration ⟨start, 0, 0, false⟩ obs

/- ------------------------------------------------------------------ -/
/- Helper lemmas                                                       -/
/- ------------------------------------------------------------------ -/

theorem workerStep_counts (I : Int) (st : WorkerState) (w : TickWork) :
    (workerStep I st w).timelySends + (workerStep I st w).lateSends
      = st.timelySends + st.lateSends + 1 ∧
    (workerStep I st w).successTotal + (workerStep I st w).errorTotal
      = st.successTotal + st.errorTotal + 1 := by
  cases hres : w.result <;> simp only [workerStep, hres] <;> split <;> simp <;> omega

theorem workerStep_sent (I : Int) (st : WorkerState) (w : TickWork) :
    (workerStep I st w).resultsSent.length + st.successTotal
      = st.resultsSent.length + (workerStep I st w).successTotal ∧
    (workerStep I st w).errorsSent.length + st.errorTotal
      = st.errorsSent.length + (workerStep I st w).errorTotal := by
  cases hres : w.result <;> simp only [workerStep, hres] <;> split <;> simp <;> omega

theorem foldl_workerStep_counts (I : Int) (ticks : List TickWork) :
    ∀ st : WorkerState,
      (ticks.foldl (workerStep I) st).timelySends + (ticks.foldl (workerStep I) st).lateSends
        = st.timelySends + st.lateSends + ticks.length ∧
      (ticks.foldl (workerStep I) st).successTotal + (ticks.foldl (workerStep I) st).errorTotal
        = st.successTotal + st.errorTotal + ticks.length := by
  induction ticks with
  | nil => intro st; simp
  | cons w ws ih =>
    intro st
    simp only [List.foldl_cons, List.length_cons]
    obtain ⟨h1, h2⟩ := ih (workerStep I st w)
    obtain ⟨g1, g2⟩ := workerStep_counts I st w
    omega

theorem foldl_workerStep_sent (I : Int) (ticks : List TickWork) :
    ∀ st : WorkerState,
      (ticks.foldl (workerStep I) st).resultsSent.length + st.successTotal
        = st.resultsSent.length + (ticks.foldl (workerStep I) st).successTotal ∧
      (ticks.foldl (workerStep I) st).errorsSent.length + st.errorTotal
        = st.errorsSent.length + (ticks.foldl (workerStep I) st).errorTotal := by
  induction ticks with
  | nil => intro st; simp
  | cons w ws ih =>
    intro st
    simp only [List.foldl_cons]
    obtain ⟨h1, h2⟩ := ih (workerStep I st w)
    obtain ⟨g1, g2⟩ := workerStep_sent I st w
    omega

theorem isPrefixOf_append_self (p t : List Char) : p.isPrefixOf (p ++ t) = true := by
  induction p with
  | nil => simp [List.isPrefixOf]
  | cons c cs ih => simp [List.isPrefixOf, ih]

theorem matchAt_literal (N : List Char) (hne : N ≠ [])
    (hdig : ∀ c ∈ N, Char.isDigit c = true) :
    matchAt (patternLiteral ++ N) = some N := by
  have hpre : patternLiteral.isPrefixOf (patternLiteral ++ N) = true :=
    isPrefixOf_append_self _ _
  have hdrop : (patternLiteral ++ N).drop patternLiteral.length = N := List.drop_left _ _
  have htake : N.takeWhile Char.isDigit = N := List.takeWhile_eq_self_iff.2 hdig
  have hempty : N.isEmpty = false := by
    cases N with
    | nil => exact absurd rfl hne
    | cons c cs => rfl
  simp [matchAt, hpre, hdrop, htake, hempty]

theorem findCapture_of_matchAt (s ds : List Char) (hs : s ≠ [])
    (h : matchAt s = some ds) : findCapture s = some ds := by
  cases s with
  | nil => exact absurd rfl hs
  | cons c cs => simp [findCapture, h]

theorem setKey_mem (m : List (String × Nat)) (k : String) (v : Nat) :
    ∀ kv ∈ setKey m k v, kv.1 = k ∨ kv ∈ m := by
  intro kv h
  unfold setKey at h
  split at h
  · obtain ⟨p, hp, he⟩ := List.mem_map.1 h
    by_cases hc : p.1 = k
    · left; rw [← he]; simp [hc]
    · right; rw [← he]; simpa [hc] using hp
  · rcases List.mem_append.1 h with h | h
    · right; exact h
    · left; rw [List.mem_singleton.1 h]

theorem formatErrors_fold_keys (errs : List (String × Nat)) :
    ∀ m : List (String × Nat),
      ∀ kv ∈ errs.foldl (fun m p => setKey m (normalizeErrorKey p.1) p.2) m,
        kv ∈ m ∨ ∃ sc ∈ errs, kv.1 = normalizeErrorKey sc.1 := by
  induction errs with
  | nil => intro m kv h; exact Or.inl h
  | cons p ps ih =>
    intro m kv h
    simp only [List.foldl_cons] at h
    rcases ih _ kv h with hm | ⟨sc, hsc, he⟩
    · rcases setKey_mem _ _ _ kv hm with hk | hmem
      · exact Or.inr ⟨p, List.mem_cons_self _ _, hk⟩
      · exact Or.inl hmem
    · exact Or.inr ⟨sc, List.mem_cons_of_mem _ hsc, he⟩

theorem digitChar_isDigit (n : Nat) : Char.isDigit (digitChar n) = true := by
  unfold digitChar
  split <;> decide

theorem goItoaCore_digits (fuel : Nat) :
    ∀ n : Nat, ∀ c ∈ goItoaCore fuel n, Char.isDigit c = true := by
  induction fuel with
  | zero => intro n c hc; simp [goItoaCore] at hc
  | succ fuel ih =>
    intro n c hc
    unfold goItoaCore at hc
    split at hc
    · simp at hc; subst hc; exact digitChar_isDigit n
    · rcases List.mem_append.1 hc with h | h
      · exact ih (n / 10) c h
      · simp at h; subst h; exact digitChar_isDigit (n % 10)

theorem goItoa_digits (n : Nat) : ∀ c ∈ goItoa n, Char.isDigit c = true :=
  goItoaCore_digits (n + 1) n

theorem isPrefixOf_mem (p l : List Char) (h : p.isPrefixOf l = true) :
    ∀ c ∈ p, c ∈ l := by
  induction p generalizing l with
  | nil => intro c hc; simp at hc
  | cons a as ih =>
    cases l with
    | nil => simp [List.isPrefixOf] at h
    | cons b bs =>
      simp only [List.isPrefixOf, Bool.and_eq_true, beq_iff_eq] at h
      intro c hc
      rcases List.mem_cons.1 hc with rfl | hc
      · rw [h.1]; exact List.mem_cons_self _ _
      · exact List.mem_cons_of_mem _ (ih bs h.2 c hc)

theorem findCapture_some_has_dash (l : List Char) :
    ∀ ds : List Char, findCapture l = some ds → '-' ∈ l := by
  induction l with
  | nil => intro ds h; simp [findCapture] at h
  | cons c cs ih =>
    intro ds h
    unfold findCapture at h
    cases hm : matchAt (c :: cs) with
    | some d =>
      have hpre : patternLiteral.isPrefixOf (c :: cs) = true := by
        by_contra hnp
        simp [matchAt, hnp] at hm
      exact isPrefixOf_mem _ _ hpre '-' (by decide)
    | none =>
      simp only [hm] at h
      exact List.mem_cons_of_mem _ (ih ds h)

theorem tightStep_lastTick (I : Int) (st : TickerState) (o : TickerObs) :
    (tightStep I st o).lastTick = st.lastTick + I := rfl

theorem tightStep_closed (I : Int) (st : TickerState) (o : TickerObs) :
    (tightStep I st o).closed = st.closed := rfl

theorem tightStep_count (I : Int) (st : TickerState) (o : TickerObs) :
    (tightStep I st o).timelyTicks + (tightStep I st o).missedTicks
      = st.timelyTicks + st.missedTicks + 1 := by
  cases hr : o.ready <;> simp [tightStep, hr] <;> omega

theorem tightStep_timely_iff (I : Int) (st : TickerState) (o : TickerObs) :
    (tightStep I st o).timelyTicks = st.timelyTicks + 1 ↔ o.ready = true := by
  cases hr : o.ready <;> simp [tightStep, hr]

theorem tightLoop_lastTick (start I dur : Int) (obs : List TickerObs) :
    ∀ st : TickerState,
      (tightLoop start I dur st obs).lastTick
          + ((st.timelyTicks : Int) + (st.missedTicks : Int)) * I
        = st.lastTick
          + (((tightLoop start I dur st obs).timelyTicks : Int)
              + ((tightLoop start I dur st obs).missedTicks : Int)) * I := by
  induction obs with
  | nil => intro st; simp [tightLoop]
  | cons o rest ih =>
    intro st
    have h1 := tightStep_lastTick I st o
    have h2 := tightStep_count I st o
    have hc : ((tightStep I st o).timelyTicks : Int) + ((tightStep I st o).missedTicks : Int)
        = (st.timelyTicks : Int) + (st.missedTicks : Int) + 1 := by omega
    unfold tightLoop
    split
    · show (tightStep I st o).lastTick + _ = _
      rw [h1, hc]
      ring
    · have hrec := ih (tightStep I st o)
      linear_combination hrec - I * hc + h1

theorem tightLoop_closed (start I dur : Int) (obs : List TickerObs) :
    ∀ st : TickerState, st.closed = false →
      ((tightLoop start I dur st obs).closed = true ↔ ∃ o ∈ obs, dur < o.now - start) := by
  induction obs with
  | nil => intro st h; simp [tightLoop, h]
  | cons o rest ih =>
    intro st h
    unfold tightLoop
    split
    · next hterm =>
      constructor
      · intro _; exact ⟨o, List.mem_cons_self _ _, hterm⟩
      · intro _; rfl
    · next hterm =>
      have hst' : (tightStep I st o).closed = false := by
        rw [tightStep_closed]; exact h
      rw [ih (tightStep I st o) hst']
      constructor
      · rintro ⟨x, hx, hc⟩
        exact ⟨x, List.mem_cons_of_mem _ hx, hc⟩
      · rintro ⟨x, hx, hc⟩
        rcases List.mem_cons.1 hx with rfl | hx
        · exact absurd hc hterm
        · exact ⟨x, hx, hc⟩

/- ------------------------------------------------------------------ -/
/- Claim theorems                                                      -/
/- ------------------------------------------------------------------ -/

/-- C1 (counterexample): the claim that the recorded value is
`max(0, L − base_latency_ns)` for every measured latency `L` and every
configured base latency fails at `L = 0`, `base_latency = 1 ns`: the
collector passes `0 − 1 = −1` to `RecordValue`, not `max(0, −1) = 0`. -/
theorem recorded_value_not_clamped_at_zero :
    recordedOfMeasured 0 1 = -1 ∧ recordedOfMeasured 0 1 ≠ max 0 (0 - 1) := by
  decide

/-- C1 (amended): the clamp is applied by the worker to the measured
latency before the collector subtracts the base latency, so the value
recorded for a success with measured latency `L` is `max(0, L) −
base_latency_ns`; in particular, with base latency 0 a success measured at
0 ns records the value 0 and the histogram record count still increments by
one. -/
theorem recorded_value_eq_clamped_latency_sub_base (L b : Int) (recorded : List Int) :
    recordedOfMeasured L b = max 0 L - b ∧
    recordedOfMeasured 0 0 = 0 ∧
    (processResult 0 recorded (sentLatency 0)).length = recorded.length + 1 ∧
    processResult 0 recorded (sentLatency 0) = recorded ++ [0] := by
  refine ⟨?_, by decide, by simp [processResult], by simp [processResult, recordValueArg, sentLatency]⟩
  simp only [recordedOfMeasured, recordValueArg, sentLatency, max_def]
  split <;> split <;> omega

/-- C2 (code bug): `collectorFunc` does not drain the buffered channels.
Its `select` treats the closed `stopCollector` channel as an always-ready
arm, so from a state in which one success sample is still buffered in the
results channel it may return at once, leaving the sample unprocessed: the
histogram then holds 0 recorded values although the workers produced one
success. -/
theorem collector_may_return_with_buffered_sample :
    CollectorReturns 0 ⟨[2000000], [], true, [], []⟩ ⟨[2000000], [], true, [], []⟩ ∧
    (⟨[2000000], [], true, [], []⟩ : CollectorState).recorded.length = 0 ∧
    (⟨[2000000], [], true, [], []⟩ : CollectorState).resultsBuf ≠ [] :=
  ⟨CollectorReturns.done _ rfl, rfl, by decide⟩

/-- C3: `tickerFunc` uses the sleeping strategy exactly when the tight
ticker is not forced and the expected interval is at least seven times the
probed timer resolution; in every other case, and in particular whenever
the tight ticker is forced, it uses the tight strategy. -/
theorem ticker_strategy_selection (f : Bool) (i r : Int) :
    (tickerChoice f i r = .sleeping ↔ f = false ∧ 7 * r ≤ i) ∧
    (tickerChoice f i r = .tight ↔ ¬(f = false ∧ 7 * r ≤ i)) ∧
    tickerChoice true i r = .tight := by
  refine ⟨?_, ?_, ?_⟩ <;> unfold tickerChoice <;> split <;> simp_all

/-- C9: `NewBenchmark` rejects a zero request rate with a fatal
configuration error before the run starts, coerces a zero connections count
to 1, and for every positive rate succeeds with
`expectedInterval = 1 second / request rate` (nanoseconds). -/
theorem new_benchmark_validation (r c : Nat) (d b : Int) :
    NewBenchmark 0 c d b = .error "RequestRate must be positive" ∧
    (r ≠ 0 → NewBenchmark r c d b =
      .ok { connections := if c = 0 then 1 else c, requestRate := r, duration := d,
            baseLatency := b, expectedInterval := 1000000000 / r }) := by
  constructor
  · simp [NewBenchmark]
  · intro hr; simp [NewBenchmark, hr]

/-- C9 (witness): a concrete instantiation of the construction theorem at
rate 400, zero connections. -/
theorem new_benchmark_validation_witness :
    NewBenchmark 400 0 7 3 =
      .ok { connections := 1, requestRate := 400, duration := 7, baseLatency := 3,
            expectedInterval := 2500000 } := by
  have h := (new_benchmark_validation 400 0 7 3).2 (by decide)
  simpa using h

/-- C7: the distribution file is the header, the blank separator line, then
exactly one data row per requested percentile in input order; row `i` has
`Value = value_at_quantile(percentiles[i]) / 1e6`,
`Percentile = percentiles[i] / 100`, the literal `TotalCount = 0` and
`1 / (1 − percentiles[i] / 100)`. -/
theorem distribution_file_rows (q : ℚ → Int) (ps : List ℚ) (i : Nat) :
    generateLatencyDistribution q (some ps)
      = DistLine.header :: DistLine.blank ::
          ps.map (fun p => DistLine.row ⟨(q p : ℚ) / 1000000, p / 100, 0, 1 / (1 - p / 100)⟩) ∧
    (generateLatencyDistribution q (some ps)).length = ps.length + 2 ∧
    (generateLatencyDistribution q (some ps))[i + 2]? =
      (ps[i]?).map (fun p => DistLine.row ⟨(q p : ℚ) / 1000000, p / 100, 0, 1 / (1 - p / 100)⟩) := by
  refine ⟨rfl, by simp [generateLatencyDistribution], ?_⟩
  simp [generateLatencyDistribution, distRowFor]

/-- C4: each consumed tick increments exactly one of the send-timeliness
counters — the late one exactly when the tick was picked up at least one
expected interval after its nominal time — and produces exactly one sample
(one success result or one error); consequently, summed over the merged
worker pool, `timely_sends + late_sends = success_total + error_total =`
the number of samples sent `=` the number of ticks consumed. -/
theorem worker_sample_accounting (I : Int) (runs : List (List TickWork))
    (st : WorkerState) (w : TickWork) :
    poolSum I runs (fun s => s.timelySends + s.lateSends)
      = poolSum I runs (fun s => s.successTotal + s.errorTotal) ∧
    poolSum I runs (fun s => s.timelySends + s.lateSends) = (runs.map List.length).sum ∧
    poolSum I runs (fun s => s.resultsSent.length + s.errorsSent.length)
      = poolSum I runs (fun s => s.successTotal + s.errorTotal) ∧
    ((workerStep I st w).lateSends = st.lateSends + 1
        ∧ (workerStep I st w).timelySends = st.timelySends
      ↔ I ≤ w.pickup - w.tick) ∧
    (workerStep I st w).timelySends + (workerStep I st w).lateSends
      = st.timelySends + st.lateSends + 1 ∧
    (workerStep I st w).successTotal + (workerStep I st w).errorTotal
      = st.successTotal + st.errorTotal + 1 := by
  have pool : poolSum I runs (fun s => s.timelySends + s.lateSends)
                = (runs.map List.length).sum ∧
              poolSum I runs (fun s => s.successTotal + s.errorTotal)
                = (runs.map List.length).sum ∧
              poolSum I runs (fun s => s.resultsSent.length + s.errorsSent.length)
                = (runs.map List.length).sum := by
    induction runs with
    | nil => simp [poolSum]
    | cons ts rest ih =>
      have h1 : (workerRun I ts).timelySends + (workerRun I ts).lateSends = ts.length := by
        simpa [workerRun, workerInit] using (foldl_workerStep_counts I ts workerInit).1
      have h2 : (workerRun I ts).successTotal + (workerRun I ts).errorTotal = ts.length := by
        simpa [workerRun, workerInit] using (foldl_workerStep_counts I ts workerInit).2
      have h3 : (workerRun I ts).resultsSent.length = (workerRun I ts).successTotal := by
        simpa [workerRun, workerInit] using (foldl_workerStep_sent I ts workerInit).1
      have h4 : (workerRun I ts).errorsSent.length = (workerRun I ts).errorTotal := by
        simpa [workerRun, workerInit] using (foldl_workerStep_sent I ts workerInit).2
      simp only [poolSum, List.map_cons, List.sum_cons] at ih ⊢
      omega
  have late_iff : (workerStep I st w).lateSends = st.lateSends + 1
        ∧ (workerStep I st w).timelySends = st.timelySends
      ↔ I ≤ w.pickup - w.tick := by
    cases hres : w.result <;> simp only [workerStep, hres] <;> split <;>
      rename_i hcond <;> simp_all
  obtain ⟨g1, g2⟩ := workerStep_counts I st w
  exact ⟨by omega, pool.1, by omega, late_iff, g1, g2⟩

/-- C6 (counterexample): the presentation order of error buckets with equal
counts is not determined: for the entry set `{a: 1, b: 1}` both renderings
`[b, a]` and `[a, b]` are possible outputs of `Summary.String` (the slice is
filled from Go map iteration, whose order is arbitrary, and `sort.Sort` is
not stable), so no insertion order is preserved. -/
theorem error_table_tie_order_not_determined :
    PossibleErrorTable [("a", 1), ("b", 1)] [("b", 1), ("a", 1)] ∧
    PossibleErrorTable [("a", 1), ("b", 1)] [("a", 1), ("b", 1)] ∧
    ([("b", 1), ("a", 1)] : List (String × Nat)) ≠ [("a", 1), ("b", 1)] := by
  unfold PossibleErrorTable sortedDescBy
  exact ⟨⟨by decide, by decide⟩, ⟨by decide, by decide⟩, by decide⟩

/-- C6 (amended): error buckets are presented sorted by non-increasing
count — such a rendering always exists, and every possible rendering is a
permutation of the entries sorted by descending count — but the relative
order of equal-count buckets is unspecified. -/
theorem error_table_sorted_by_descending_count (entries : List (String × Nat)) :
    (∃ out, PossibleErrorTable entries out) ∧
    (∀ out, PossibleErrorTable entries out → out.Perm entries ∧ sortedDescBy out) := by
  constructor
  · refine ⟨entries.mergeSort (fun a b => decide (b.2 ≤ a.2)), List.mergeSort_perm entries _, ?_⟩
    have h := @List.sorted_mergeSort (String × Nat) (fun a b => decide (b.2 ≤ a.2))
      (fun a b c hab hbc => by simp_all; omega)
      (fun a b => by simpa using Nat.le_total b.2 a.2)
      entries
    exact h.imp (fun hd => by simpa using hd)
  · exact fun out h => ⟨h.1, h.2⟩

/-- C6 (witness): the sortedness theorem applied to a concrete entry set
and a concrete possible rendering. -/
theorem error_table_sorted_witness :
    (∃ out, PossibleErrorTable [("x", 2), ("y", 5)] out) ∧
    ([("y", 5), ("x", 2)].Perm [("x", 2), ("y", 5)] ∧ sortedDescBy [("y", 5), ("x", 2)]) := by
  obtain ⟨hex, hall⟩ := error_table_sorted_by_descending_count [("x", 2), ("y", 5)]
  exact ⟨hex, hall [("y", 5), ("x", 2)] ⟨by decide, by unfold sortedDescBy; decide⟩⟩

/-- C5: at summary time, an error string containing the case-sensitive
pattern `Expected 200-response, but got <N>` is bucketed under the captured
numeric key `<N>` (`"Expected 200-response, but got 503"` maps to `"503"`,
and so does the pattern literal followed by any nonempty digit run), while
a string the regex does not match (`"connection refused"`) is bucketed
under the original string verbatim; every key of the formatted map is the
normalisation of some input error string. -/
theorem error_key_normalization :
    normalizeErrorKey "Expected 200-response, but got 503" = "503" ∧
    normalizeErrorKey "connection refused" = "connection refused" ∧
    (∀ N : List Char, N ≠ [] → (∀ c ∈ N, Char.isDigit c = true) →
      normalizeErrorKey (String.mk (patternLiteral ++ N)) = String.mk N) ∧
    (∀ s : String, findCapture s.data = none → normalizeErrorKey s = s) ∧
    (∀ errs : List (String × Nat), ∀ kv ∈ formatErrors errs,
      ∃ sc ∈ errs, kv.1 = normalizeErrorKey sc.1) := by
  refine ⟨by decide, by decide, ?_, ?_, ?_⟩
  · intro N hne hdig
    have hnil : patternLiteral ++ N ≠ [] := fun hq =>
      absurd (List.append_eq_nil.mp hq).1 (by decide)
    have hfind : findCapture (patternLiteral ++ N) = some N :=
      findCapture_of_matchAt _ _ hnil (matchAt_literal N hne hdig)
    simp [normalizeErrorKey, hfind]
  · intro s h
    simp [normalizeErrorKey, h]
  · intro errs kv h
    rcases formatErrors_fold_keys errs [] kv (by simpa [formatErrors] using h) with hm | hgood
    · exact absurd hm (List.not_mem_nil kv)
    · exact hgood

/-- C5 (witness): the normalisation theorem instantiated at the concrete
digit run `404`, the unmatched string `boom`, and a concrete error map. -/
theorem error_key_normalization_witness :
    normalizeErrorKey (String.mk (patternLiteral ++ ['4', '0', '4'])) = String.mk ['4', '0', '4'] ∧
    normalizeErrorKey "boom" = "boom" ∧
    (∃ sc ∈ [("boom", 3)], ("boom", 3).1 = normalizeErrorKey sc.1) := by
  obtain ⟨-, -, h3, h4, h5⟩ := error_key_normalization
  refine ⟨h3 ['4', '0', '4'] (by decide) (by decide), h4 "boom" (by decide), ?_⟩
  exact h5 [("boom", 3)] ("boom", 3) (by
    have : normalizeErrorKey "boom" = "boom" := h4 "boom" (by decide)
    simp [formatErrors, setKey, this])

/-- C10: the status-code mismatch error emitted by `webRequester.Request`
reads `Expected <expected> got <actual>` (for 200 versus 503 it is exactly
`"Expected 200 got 503"`); it never matches the summary normaliser's
pattern `Expected 200-response, but got <N>` — the string contains no `-`
character while the pattern literal does — so such failures are always
bucketed under the full verbatim string, never under the numeric code. -/
theorem web_requester_error_never_matches_normalizer (expected actual : Nat) :
    findCapture (statusMismatchError expected actual).data = none ∧
    normalizeErrorKey (statusMismatchError expected actual)
      = statusMismatchError expected actual ∧
    statusMismatchError 200 503 = "Expected 200 got 503" := by
  have hnoDash : '-' ∉ (statusMismatchError expected actual).data := by
    intro hmem
    have hsplit : '-' ∈ "Expected ".data ∨ '-' ∈ goItoa expected ∨
        '-' ∈ " got ".data ∨ '-' ∈ goItoa actual := by
      simpa [statusMismatchError, List.mem_append, or_assoc] using hmem
    rcases hsplit with h | h | h | h
    · exact absurd h (by decide)
    · exact absurd (goItoa_digits expected '-' h) (by decide)
    · exact absurd h (by decide)
    · exact absurd (goItoa_digits actual '-' h) (by decide)
  have hfind : findCapture (statusMismatchError expected actual).data = none := by
    cases hf : findCapture (statusMismatchError expected actual).data with
    | none => rfl
    | some ds => exact absurd (findCapture_some_has_dash _ ds hf) hnoDash
  exact ⟨hfind, by simp [normalizeErrorKey, hfind], by decide⟩

/-- C8: the tight ticker busy-polls the clock and only emits once the
observed time is at least one expected interval past `last_tick` (the
`busyWait` clause); on each emitted tick it advances `last_tick` by exactly
the expected interval — so at any point `last_tick = start + (ticks
emitted) × expected_interval`, independent of the actually elapsed time —
counts one timely tick exactly when the non-blocking send is accepted and
one missed tick otherwise, and closes the tick channel and terminates
exactly when some emitted tick has `now − start > duration`. -/
theorem tight_ticker_spec (start I dur : Int) (obs : List TickerObs)
    (st : TickerState) (o : TickerObs) :
    (tightTicker start I dur obs).lastTick
      = start + (((tightTicker start I dur obs).timelyTicks : Int)
          + ((tightTicker start I dur obs).missedTicks : Int)) * I ∧
    ((tightTicker start I dur obs).closed = true ↔ ∃ x ∈ obs, dur < x.now - start) ∧
    (tightStep I st o).lastTick = st.lastTick + I ∧
    (tightStep I st o).timelyTicks + (tightStep I st o).missedTicks
      = st.timelyTicks + st.missedTicks + 1 ∧
    ((tightStep I st o).timelyTicks = st.timelyTicks + 1 ↔ o.ready = true) ∧
    (∀ lastTick : Int, ∀ trace : List Int, ∀ t : Int,
      busyWait lastTick I trace = some t → I ≤ t - lastTick) := by
  refine ⟨?_, ?_, tightStep_lastTick I st o, tightStep_count I st o,
    tightStep_timely_iff I st o, ?_⟩
  · have h := tightLoop_lastTick start I dur obs ⟨start, 0, 0, false⟩
    simpa [tightTicker] using h
  · exact tightLoop_closed start I dur obs ⟨start, 0, 0, false⟩ rfl
  · intro lt trace
    induction trace with
    | nil => intro t h; simp [busyWait] at h
    | cons r rs ih =>
      intro t h
      unfold busyWait at h
      split at h
      · next hcond =>
        injection h with h2
        subst h2
        exact hcond
      · exact ih t h

/-- C8 (witness): the tight-ticker theorem applied to a concrete run of
three emitted ticks at interval 10 with duration 25, and to a concrete
busy-wait trace. -/
theorem tight_ticker_spec_witness :
    (tightTicker 0 10 25 [⟨12, true⟩, ⟨23, false⟩, ⟨31, true⟩]).lastTick
      = 0 + (((tightTicker 0 10 25 [⟨12, true⟩, ⟨23, false⟩, ⟨31, true⟩]).timelyTicks : Int)
          + ((tightTicker 0 10 25 [⟨12, true⟩, ⟨23, false⟩, ⟨31, true⟩]).missedTicks : Int)) * 10 ∧
    (tightTicker 0 10 25 [⟨12, true⟩, ⟨23, false⟩, ⟨31, true⟩]).closed = true ∧
    (10 : Int) ≤ 12 - 0 := by
  obtain ⟨h1, h2, -, -, -, h6⟩ :=
    tight_ticker_spec 0 10 25 [⟨12, true⟩, ⟨23, false⟩, ⟨31, true⟩] ⟨0, 0, 0, false⟩ ⟨12, true⟩
  exact ⟨h1, h2.mpr ⟨⟨31, true⟩, by decide, by decide⟩, h6 0 [5, 12] 12 (by decide)⟩

end LaBench
